import Mathlib

/-!
Shallow embedding of the Sedaro Nano simulation service.

The boundary layer (`app/app.py`) is embedded directly from the source:
the `POST /simulation` handler (`simulate`), the `GET /simulation` handler
(`get_data`), the `Simulation` database row model, and the after-request
metrics hook (`_record_metrics`).

The core (`Simulator`, `QRangeStore`) is not part of the provided sources;
it is modelled from the specification (sections 4.1 to 4.3 and 7 of the
spec): validation of the initial conditions, the per-iteration symplectic
Euler step with a singularity guard on zero separation, and the per-agent
append-only interval store.  All numerics are modelled over the rationals.
-/

namespace Sedaro

/-- Decidable equality of fallible outcomes, so that concrete runs of the
model can be evaluated by `decide`. -/
instance exceptDecidableEq {ε : Type u} {α : Type v} [DecidableEq ε]
    [DecidableEq α] : DecidableEq (Except ε α)
  | .error e1, .error e2 =>
    if h : e1 = e2 then isTrue (by rw [h])
    else isFalse (fun hc => h (Except.error.inj hc))
  | .error _, .ok _ => isFalse (fun hc => Except.noConfusion hc)
  | .ok _, .error _ => isFalse (fun hc => Except.noConfusion hc)
  | .ok a1, .ok a2 =>
    if h : a1 = a2 then isTrue (by rw [h])
    else isFalse (fun hc => h (Except.ok.inj hc))

/-- A raw agent object from the JSON request body of `POST /simulation`:
each field may be absent.  Mirrors the dict-of-dicts shape read at
`app.py` line 110. -/
structure RawAgent where
  x : Option ℚ
  y : Option ℚ
  vx : Option ℚ
  vy : Option ℚ
  time : Option ℚ
  timeStep : Option ℚ
deriving DecidableEq

/-- The body of the loop at `app.py` lines 111-113: `init[key]["time"] = 0`
and `init[key]["timeStep"] = 0.01`, applied to one agent object.  The
assignment is unconditional: it overwrites any value the caller supplied. -/
def setTimeFields (a : RawAgent) : RawAgent :=
  { a with time := some 0, timeStep := some (1 / 100) }

/-- The whole loop at `app.py` lines 111-113, over every agent of the
request body. -/
def applyDefaults (init : List (String × RawAgent)) : List (String × RawAgent) :=
  init.map (fun p => (p.1, setTimeFields p.2))

/-- A fully validated agent state: position, velocity, current time and
per-agent time step, all numeric (spec section 3, "Agent state"). -/
structure AgentState where
  x : ℚ
  y : ℚ
  vx : ℚ
  vy : ℚ
  time : ℚ
  timeStep : ℚ
deriving DecidableEq

/-- The error taxonomy of spec section 7. -/
inductive SimError where
  | validationError
  | numericalError
  | indexingError
deriving DecidableEq

/-- Modelled from the spec: `create` "validates the initial-conditions
mapping (each agent must supply position, velocity, time, and step size;
all numeric)" (section 4.3).  A single agent object validates exactly when
every field is present. -/
def validateAgent (a : RawAgent) : Option AgentState :=
  match a.x, a.y, a.vx, a.vy, a.time, a.timeStep with
  | some x, some y, some vx, some vy, some t, some dt =>
    some ⟨x, y, vx, vy, t, dt⟩
  | _, _, _, _, _, _ => none

/-- Modelled from the spec: validation of every agent of the mapping,
failing with a `ValidationError` on the first malformed agent
(spec sections 4.3 and 7). -/
def validateAgents :
    List (String × RawAgent) → Except SimError (List (String × AgentState))
  | [] => .ok []
  | (n, a) :: rest =>
    match validateAgent a, validateAgents rest with
    | some s, .ok l => .ok ((n, s) :: l)
    | some _, .error e => .error e
    | none, _ => .error .validationError

/-- Modelled from the spec: `create(initial_conditions)` "fails with a
validation error if any agent is malformed or if the mapping is empty"
(spec section 4.3). -/
def validateInit (init : List (String × RawAgent)) :
    Except SimError (List (String × AgentState)) :=
  if init.isEmpty then .error .validationError else validateAgents init

/-- Modelled from the spec: construction of the agent registry from the
initial-conditions document, `Simulator(store=store, init=init)` at
`app.py` line 118; validation happens before any step executes. -/
def Simulator.create (init : List (String × RawAgent)) :
    Except SimError (List (String × AgentState)) :=
  validateInit init

/-- An interval record `(start_time, end_time, agent_state)` of one agent
(spec section 3, "Interval record"). -/
structure IntervalRecord where
  start_time : ℚ
  end_time : ℚ
  state : AgentState
deriving DecidableEq

/-- The range store content, as exported: a mapping from agent name to its
ordered interval sequence (spec section 4.1, `export()`). -/
abbrev RangeStore := List (String × List IntervalRecord)

/-- Modelled from the spec: the pairwise contribution of agent `b` to the
acceleration of agent `a`, "an inverse-square or similar singular term",
with the mandatory guard "against zero separation distance before
computing" it (spec section 4.2); zero separation is a `NumericalError`
(spec section 7). -/
def pairAccel (a b : AgentState) : Except SimError (ℚ × ℚ) :=
  let dx := b.x - a.x
  let dy := b.y - a.y
  let r2 := dx * dx + dy * dy
  if r2 = 0 then .error .numericalError
  else .ok (dx / r2, dy / r2)

/-- Modelled from the spec: the net interaction effect on one agent is the
sum of the pairwise contributions from every other agent (spec section
4.2, step 1). -/
def netAccel (a : AgentState) : List AgentState → Except SimError (ℚ × ℚ)
  | [] => .ok (0, 0)
  | b :: rest =>
    match pairAccel a b, netAccel a rest with
    | .ok acc, .ok s => .ok (acc.1 + s.1, acc.2 + s.2)
    | .error e, _ => .error e
    | .ok _, .error e => .error e

/-- Modelled from the spec: one symplectic Euler step of a single agent
against the pre-step snapshot of all agents (spec section 4.2, steps 1-4):
`v_new = v_old + a * dt`, then `x_new = x_old + v_new * dt`, then the
local time advances by the agent's own step size. -/
def stepAgent (snapshot : List (String × AgentState)) (n : String)
    (a : AgentState) : Except SimError AgentState :=
  match netAccel a ((snapshot.filter (fun p => p.1 ≠ n)).map Prod.snd) with
  | .error e => .error e
  | .ok acc =>
    let vx := a.vx + acc.1 * a.timeStep
    let vy := a.vy + acc.2 * a.timeStep
    .ok { x := a.x + vx * a.timeStep, y := a.y + vy * a.timeStep,
          vx := vx, vy := vy,
          time := a.time + a.timeStep, timeStep := a.timeStep }

/-- Modelled from the spec: one global iteration advances every agent by
one step, all accelerations computed from the same pre-step snapshot
(spec section 4.2); the first failure aborts the iteration. -/
def stepAgents (snapshot : List (String × AgentState)) :
    List (String × AgentState) → Except SimError (List (String × AgentState))
  | [] => .ok []
  | (n, a) :: rest =>
    match stepAgent snapshot n a, stepAgents snapshot rest with
    | .ok a2, .ok l => .ok ((n, a2) :: l)
    | .error e, _ => .error e
    | .ok _, .error e => .error e

/-- Modelled from the spec: after a global iteration, each agent's
resulting state is appended as a new interval `[old_time, new_time)` to
that agent's sequence in the store (spec section 4.2, step 5).  The store
rows are kept aligned with the agent registry. -/
def appendStep :
    List (String × AgentState) → List (String × AgentState) →
      RangeStore → RangeStore
  | (_, a) :: os, (_, a2) :: ns, (m, recs) :: ss =>
    (m, recs ++ [⟨a.time, a2.time, a2⟩]) :: appendStep os ns ss
  | _, _, s => s

/-- Modelled from the spec: the bounded iteration loop of the run
(spec section 4.3, `run(max_iterations)`); a fatal numerical condition
stops the run at that iteration. -/
def simulateAux :
    Nat → List (String × AgentState) → RangeStore →
      Except SimError RangeStore
  | 0, _, store => .ok store
  | k + 1, agents, store =>
    match stepAgents agents agents with
    | .error e => .error e
    | .ok agents2 => simulateAux k agents2 (appendStep agents agents2 store)

/-- Modelled from the spec: `simulator.simulate()` at `app.py` line 123
runs the iteration loop on a fresh, empty store and returns the exported
store contents (spec sections 4.2 and 4.3). -/
def Simulator.simulate (agents : List (String × AgentState))
    (iterations : Nat) : Except SimError RangeStore :=
  simulateAux iterations agents (agents.map (fun p => (p.1, [])))

/-- Decimal-free textual form of a rational, used by the JSON encoder. -/
def jsonOfQ (q : ℚ) : String :=
  toString q.num ++ "/" ++ toString q.den

/-- JSON text of one agent state. -/
def jsonOfState (s : AgentState) : String :=
  "\x7b\"x\": " ++ jsonOfQ s.x ++ ", \"y\": " ++ jsonOfQ s.y ++
    ", \"vx\": " ++ jsonOfQ s.vx ++ ", \"vy\": " ++ jsonOfQ s.vy ++
    ", \"time\": " ++ jsonOfQ s.time ++
    ", \"timeStep\": " ++ jsonOfQ s.timeStep ++ "\x7d"

/-- JSON text of one interval record. -/
def jsonOfRecord (r : IntervalRecord) : String :=
  "[" ++ jsonOfQ r.start_time ++ ", " ++ jsonOfQ r.end_time ++ ", " ++
    jsonOfState r.state ++ "]"

/-- JSON text of one agent's record sequence. -/
def jsonOfRecords (l : List IntervalRecord) : String :=
  "[" ++ String.intercalate ", " (l.map jsonOfRecord) ++ "]"

/-- `json.dumps(store.store)` at `app.py` line 127: the JSON serialization
of the exported store contents. -/
def jsonOfStore (s : RangeStore) : String :=
  "\x7b" ++
    String.intercalate ", "
      (s.map (fun p => "\"" ++ p.1 ++ "\": " ++ jsonOfRecords p.2)) ++
    "\x7d"

/-- The `Simulation` database model of `app.py` lines 54-56: an integer
primary key and the serialized data. -/
structure Simulation where
  id : Nat
  data : String
deriving DecidableEq

/-- The database table of `Simulation` rows. -/
abbrev DB := List Simulation

/-- The largest primary key present in the table (0 when empty). -/
def maxId : DB → Nat
  | [] => 0
  | r :: rs => max r.id (maxId rs)

/-- `db.session.add` followed by `db.session.commit` at `app.py` lines
128-129: the new row receives the next autoincrement primary key, strictly
greater than every existing id. -/
def commitRow (db : DB) (data : String) : DB :=
  db ++ [⟨maxId db + 1, data⟩]

/-- Lines 110-124 of `app.py`: read the body (`request.json or {}`),
overwrite the time fields, build the simulator (validation) and run it.
The iteration count is the bound of spec section 4.3. -/
def runSimulation (body : Option (List (String × RawAgent)))
    (iterations : Nat) : Except SimError RangeStore :=
  match Simulator.create (applyDefaults (body.getD [])) with
  | .error e => .error e
  | .ok agents => Simulator.simulate agents iterations

/-- Outcome of one `POST /simulation` request: the database state after
the request and the value produced for the caller. -/
structure PostResult where
  db : DB
  result : Except SimError RangeStore

/-- The `POST /simulation` handler `simulate` of `app.py` lines 100-131:
run the simulation; only when it returns normally, commit
`json.dumps(store.store)` as a new `Simulation` row and return
`store.store` to the caller.  An exception propagates with the session
never touched (the add and commit at lines 128-129 are only reached after
`simulator.simulate()` returns at line 123). -/
def simulate (db : DB) (body : Option (List (String × RawAgent)))
    (iterations : Nat) : PostResult :=
  match runSimulation body iterations with
  | .error e => ⟨db, .error e⟩
  | .ok doc => ⟨commitRow db (jsonOfStore doc), .ok doc⟩

/-- `Simulation.query.order_by(Simulation.id.desc()).first()` at `app.py`
line 96: the row with the greatest id, `none` on an empty table. -/
def latestRow : DB → Option Simulation
  | [] => none
  | r :: rs =>
    match latestRow rs with
    | none => some r
    | some r2 => some (if r2.id ≤ r.id then r else r2)

/-- Value returned by `GET /simulation`: either a stored payload or the
literal empty list `[]`. -/
inductive GetResponse where
  | payload (s : String)
  | emptyList
deriving DecidableEq

/-- The `GET /simulation` handler of `app.py` lines 93-97:
`simulation.data if simulation else []`. -/
def get_data (db : DB) : GetResponse :=
  match latestRow db with
  | some r => .payload r.data
  | none => .emptyList

/-- An HTTP response as seen by the after-request hook. -/
structure HttpResponse where
  status_code : Nat
  body : String
deriving DecidableEq

/-- In-process Prometheus state: request counts keyed by
(method, path, status) and latency observations keyed by (method, path). -/
structure MetricsState where
  requestCount : List ((String × String × String) × Nat)
  requestLatency : List ((String × String) × List ℚ)
deriving DecidableEq

/-- The request context the hook reads: method, path and the start time
set by the before-request hook (absent when that hook did not run). -/
structure RequestCtx where
  method : String
  path : String
  startTime : Option ℚ
deriving DecidableEq

/-- `REQUEST_COUNT.labels(...).inc()` at `app.py` line 76. -/
def incCount (st : MetricsState) (key : String × String × String) :
    MetricsState :=
  let bumped :=
    st.requestCount.map (fun p => if p.1 = key then (p.1, p.2 + 1) else p)
  if st.requestCount.any (fun p => p.1 = key) then
    { st with requestCount := bumped }
  else
    { st with requestCount := (key, 1) :: st.requestCount }

/-- `REQUEST_LATENCY.labels(...).observe(latency)` at `app.py` line 75. -/
def observeLatency (st : MetricsState) (key : String × String)
    (latency : ℚ) : MetricsState :=
  let extended :=
    st.requestLatency.map
      (fun p => if p.1 = key then (p.1, latency :: p.2) else p)
  if st.requestLatency.any (fun p => p.1 = key) then
    { st with requestLatency := extended }
  else
    { st with requestLatency := (key, [latency]) :: st.requestLatency }

/-- The body of the `try` block at `app.py` lines 71-76: when a start time
is present, observe the latency and bump the request counter. -/
def recordAttempt (req : RequestCtx) (now : ℚ) (resp : HttpResponse)
    (st : MetricsState) : Except String MetricsState :=
  match req.startTime with
  | none => .ok st
  | some start =>
    let latency := now - start
    let path := if req.path = "" then "/" else req.path
    .ok (incCount (observeLatency st (req.method, path) latency)
      (req.method, path, toString resp.status_code))

/-- The after-request hook `_record_metrics` of `app.py` lines 68-79.
The recording attempt is abstracted as a fallible computation on the
metrics state (`attempt`); the `try ... except Exception: pass` wrapper
discards any failure and the hook returns the response it was given. -/
def _record_metrics (st : MetricsState)
    (attempt : MetricsState → Except String MetricsState)
    (resp : HttpResponse) : MetricsState × HttpResponse :=
  match attempt st with
  | .ok st2 => (st2, resp)
  | .error _ => (st, resp)

/-- Spec section 8, interval contiguity: consecutive records satisfy
`records[i].end_time == records[i+1].start_time`. -/
def Contiguous (recs : List IntervalRecord) : Prop :=
  List.Chain' (fun r s => r.end_time = s.start_time) recs

/-- Every stored interval is non-degenerate: `start_time < end_time`
(spec section 3, "Interval record"). -/
def ProperIntervals (recs : List IntervalRecord) : Prop :=
  ∀ r ∈ recs, r.start_time < r.end_time

/-- The last recorded interval of an agent, when one exists, ends exactly
at the given time (the agent's current local time). -/
def EndsAt (recs : List IntervalRecord) (t : ℚ) : Prop :=
  ∀ r ∈ recs.getLast?, r.end_time = t

/-- Alignment invariant between the agent registry and the store: rows
are keyed by the same names in the same order, and each agent's record
sequence is contiguous, proper, and ends at that agent's current time. -/
inductive Aligned : List (String × AgentState) → RangeStore → Prop where
  | nil : Aligned [] []
  | cons {n : String} {a : AgentState} {recs : List IntervalRecord}
      {rest : List (String × AgentState)} {srest : RangeStore} :
      Contiguous recs → ProperIntervals recs → EndsAt recs a.time →
      Aligned rest srest → Aligned ((n, a) :: rest) ((n, recs) :: srest)

/-- The shape of one successful global iteration: names are preserved
position-wise, each agent's time advances by exactly its own step size,
and the step size itself is unchanged. -/
inductive StepRel :
    List (String × AgentState) → List (String × AgentState) → Prop where
  | nil : StepRel [] []
  | cons {n : String} {a a2 : AgentState}
      {l l2 : List (String × AgentState)} :
      a2.time = a.time + a.timeStep → a2.timeStep = a.timeStep →
      StepRel l l2 → StepRel ((n, a) :: l) ((n, a2) :: l2)

/-- Concrete single-agent initial registry used to exercise the model. -/
def wAgents : List (String × AgentState) :=
  [("A", ⟨0, 0, 0, 0, 0, 1 / 100⟩)]

/-- The store contents produced by one iteration on `wAgents`. -/
def wOut : RangeStore :=
  [("A", [⟨0, 1 / 100, ⟨0, 0, 0, 0, 1 / 100, 1 / 100⟩⟩])]

/-- The record sequence of agent `A` in `wOut`. -/
def wRecs : List IntervalRecord :=
  [⟨0, 1 / 100, ⟨0, 0, 0, 0, 1 / 100, 1 / 100⟩⟩]

/-- A raw agent supplying position and velocity only. -/
def wRaw : RawAgent :=
  ⟨some 0, some 0, some 0, some 0, none, none⟩

/-- An agent state used for the coincident-position runs. -/
def wSingular : AgentState :=
  ⟨1, 2, 3, 4, 0, 1 / 100⟩

/-- A raw agent at the same coordinates as another, for the
coincident-position request. -/
def wRawSingular : RawAgent :=
  ⟨some 1, some 2, some 3, some 4, none, none⟩

/-- A non-empty database table used to exercise the handlers. -/
def wDb : DB :=
  [⟨1, "seed"⟩]

/-- A well-formed single-agent request body. -/
def wBody : Option (List (String × RawAgent)) :=
  some [("A", wRaw)]

/-- A request body with two agents at identical coordinates. -/
def wBadBody : Option (List (String × RawAgent)) :=
  some [("A", wRawSingular), ("B", wRawSingular)]

/-- The claimed pass-through property of the time fields, as the spec
states it: a caller-supplied initial time or time step reaches the core
unchanged, and the defaults apply only when the field is absent. -/
def TimeFieldsPassThrough : Prop :=
  ∀ a : RawAgent,
    (∀ t : ℚ, a.time = some t → (setTimeFields a).time = some t) ∧
    (∀ dt : ℚ, a.timeStep = some dt → (setTimeFields a).timeStep = some dt) ∧
    (a.time = none → (setTimeFields a).time = some 0) ∧
    (a.timeStep = none → (setTimeFields a).timeStep = some (1 / 100))

/-- C1 counterexample: the time fields do not pass through.  For the
concrete agent supplying `time = 5` and `timeStep = 1/2`, the loop at
`app.py` lines 111-113 produces `time = 0`, so the pass-through claim is
false. -/
theorem c1_pass_through_false : ¬ TimeFieldsPassThrough := by
  intro h
  have h5 :=
    (h ⟨some 0, some 0, some 0, some 0, some 5, some (1 / 2)⟩).1 5 rfl
  exact absurd h5 (by decide)

/-- C1 (amended): the handler unconditionally sets every agent's initial
time to 0 and its time step to the constant 0.01, overwriting any
caller-supplied values; the position and velocity fields pass through
unchanged. -/
theorem c1_time_fields_overwritten (init : List (String × RawAgent)) :
    applyDefaults init =
      init.map (fun p =>
        (p.1, ⟨p.2.x, p.2.y, p.2.vx, p.2.vy, some 0, some (1 / 100)⟩)) :=
  rfl

/-- C9: on an empty table, the `GET /simulation` handler returns the
literal empty list rather than failing. -/
theorem c9_get_data_empty_table : get_data [] = GetResponse.emptyList :=
  rfl

/-- C10: the after-request metrics hook returns the response it was given
unchanged, whatever the outcome of the recording attempt — a failure
inside the `try` block is swallowed and does not affect the response. -/
theorem c10_record_metrics_preserves_response (st : MetricsState)
    (attempt : MetricsState → Except String MetricsState)
    (resp : HttpResponse) :
    (_record_metrics st attempt resp).2 = resp := by
  unfold _record_metrics
  cases attempt st <;> rfl

/-- C7: the value produced for the caller by `POST /simulation` depends
only on the request body and the iteration count, never on the database
state left behind by other runs; hence two executions with identical
input produce identical output documents. -/
theorem c7_run_independence (body : Option (List (String × RawAgent)))
    (iterations : Nat) (db1 db2 : DB) :
    (simulate db1 body iterations).result =
      (simulate db2 body iterations).result := by
  unfold simulate
  cases hr : runSimulation body iterations <;> simp

/-- C8: when the simulation run fails, no `Simulation` row is added or
committed — the database is returned unchanged and the failure is
surfaced. -/
theorem c8_no_commit_on_failure (db : DB)
    (body : Option (List (String × RawAgent))) (iterations : Nat)
    (e : SimError) (herr : runSimulation body iterations = .error e) :
    (simulate db body iterations).db = db ∧
      (simulate db body iterations).result = .error e := by
  unfold simulate
  rw [herr]
  exact ⟨rfl, rfl⟩

/-- C8 witness: a run on two coincident agents fails with a numerical
error and leaves the seeded table untouched. -/
theorem c8_no_commit_on_failure_witness :
    (simulate wDb wBadBody 1).db = wDb ∧
      (simulate wDb wBadBody 1).result = .error .numericalError :=
  c8_no_commit_on_failure wDb wBadBody 1 .numericalError (by
    simp [runSimulation, Simulator.create, validateInit, validateAgents,
      validateAgent, applyDefaults, setTimeFields, Simulator.simulate,
      simulateAux, stepAgents, stepAgent, netAccel, pairAccel, appendStep,
      wBadBody, wRawSingular, List.filter])

/-- C3: on a successful run, the row committed to the database carries
exactly the JSON serialization of the store contents, and the value
returned to the caller is those store contents verbatim. -/
theorem c3_persisted_equals_serialized_response (db : DB)
    (body : Option (List (String × RawAgent))) (iterations : Nat)
    (doc : RangeStore)
    (hok : (simulate db body iterations).result = .ok doc) :
    (simulate db body iterations).db = commitRow db (jsonOfStore doc) ∧
      runSimulation body iterations = .ok doc := by
  unfold simulate at hok ⊢
  cases hr : runSimulation body iterations with
  | error e => rw [hr] at hok; cases hok
  | ok doc2 =>
    rw [hr] at hok
    have hd : doc2 = doc := by
      simpa using hok
    subst hd
    exact ⟨rfl, rfl⟩

/-- C3 witness: the single-agent request commits the serialization of the
document it returns. -/
theorem c3_persisted_equals_serialized_response_witness :
    (simulate wDb wBody 1).db = commitRow wDb (jsonOfStore wOut) ∧
      runSimulation wBody 1 = .ok wOut :=
  c3_persisted_equals_serialized_response wDb wBody 1 wOut (by
    simp [simulate, runSimulation, Simulator.create, validateInit,
      validateAgents, validateAgent, applyDefaults, setTimeFields,
      Simulator.simulate, simulateAux, stepAgents, stepAgent, netAccel,
      pairAccel, appendStep, wBody, wRaw, wOut, wAgents, List.filter])

/-- Every row's id is bounded by the table's maximal id. -/
theorem mem_id_le_maxId {db : DB} {r : Simulation} (h : r ∈ db) :
    r.id ≤ maxId db := by
  induction db with
  | nil => cases h
  | cons hd tl ih =>
    simp only [maxId]
    rcases List.mem_cons.mp h with h1 | h2
    · subst h1; exact le_max_left _ _
    · exact le_trans (ih h2) (le_max_right _ _)

/-- Appending one row extends the maximal id by a `max`. -/
theorem maxId_append_single (db : DB) (r : Simulation) :
    maxId (db ++ [r]) = max (maxId db) r.id := by
  induction db with
  | nil => simp only [List.nil_append, maxId]; omega
  | cons hd tl ih =>
    rw [List.cons_append]
    simp only [maxId]
    rw [ih]
    omega

/-- `order_by(id.desc()).first()` finds a row appended with an id
strictly above every other id. -/
theorem latestRow_append_greatest {db : DB} {r : Simulation}
    (h : ∀ r2 ∈ db, r2.id < r.id) : latestRow (db ++ [r]) = some r := by
  induction db with
  | nil => rfl
  | cons hd tl ih =>
    have htl := ih (fun r2 hm => h r2 (List.mem_cons_of_mem _ hm))
    have hhd : hd.id < r.id := h hd (List.mem_cons_self _ _)
    rw [List.cons_append]
    simp only [latestRow]
    rw [htl]
    show some (if r.id ≤ hd.id then hd else r) = some r
    rw [if_neg (by omega)]

/-- C4: after a successful `POST /simulation`, the committed row carries
an id strictly greater than every pre-existing row's, and `GET
/simulation` returns exactly that run's payload — the data of the row
with the greatest id, i.e. the last run committed. -/
theorem c4_get_returns_last_committed (db : DB)
    (body : Option (List (String × RawAgent))) (iterations : Nat)
    (doc : RangeStore) (hok : runSimulation body iterations = .ok doc) :
    (∀ r ∈ db, r.id < maxId (simulate db body iterations).db) ∧
      get_data (simulate db body iterations).db =
        .payload (jsonOfStore doc) := by
  unfold simulate
  rw [hok]
  constructor
  · intro r hr
    have hle := mem_id_le_maxId hr
    simp only [commitRow, maxId_append_single]
    omega
  · simp only [commitRow, get_data]
    rw [latestRow_append_greatest (fun r2 hm => by
      show r2.id < maxId db + 1
      have := mem_id_le_maxId hm
      omega)]

/-- C4 witness: after the single-agent run on the seeded table, `GET
/simulation` returns that run's serialized document. -/
theorem c4_get_returns_last_committed_witness :
    get_data (simulate wDb wBody 1).db = .payload (jsonOfStore wOut) :=
  (c4_get_returns_last_committed wDb wBody 1 wOut (by
    simp [runSimulation, Simulator.create, validateInit,
      validateAgents, validateAgent, applyDefaults, setTimeFields,
      Simulator.simulate, simulateAux, stepAgents, stepAgent, netAccel,
      pairAccel, appendStep, wBody, wRaw, wOut, wAgents,
      List.filter])).2

/-- An agent missing a position or velocity field stays invalid after the
time fields are overwritten. -/
theorem validateAgent_none {a : RawAgent}
    (h : a.x = none ∨ a.y = none ∨ a.vx = none ∨ a.vy = none) :
    validateAgent (setTimeFields a) = none := by
  obtain ⟨x, y, vx, vy, t, dt⟩ := a
  rcases x with _ | xv <;> rcases y with _ | yv <;>
    rcases vx with _ | vxv <;> rcases vy with _ | vyv <;>
      first
        | rfl
        | simp at h

/-- A single malformed agent anywhere in the mapping makes validation of
the whole mapping fail with a `ValidationError`. -/
theorem validateAgents_error_of_mem {l : List (String × RawAgent)}
    {p : String × RawAgent} (hm : p ∈ l)
    (hbad : validateAgent p.2 = none) :
    validateAgents l = .error .validationError := by
  induction l with
  | nil => cases hm
  | cons hd tl ih =>
    obtain ⟨n, a⟩ := hd
    rcases List.mem_cons.mp hm with h1 | h2
    · have ha : validateAgent a = none := by rw [h1] at hbad; exact hbad
      simp only [validateAgents, ha]
    · have htl := ih h2
      cases hva : validateAgent a <;>
        simp only [validateAgents, hva, htl]

/-- C2: a `POST /simulation` whose body is missing, whose mapping is
empty, or whose mapping contains a malformed agent (a missing position or
velocity component) fails with a `ValidationError` before any step
executes, and commits nothing: the database is unchanged and no
successful run is produced. -/
theorem c2_validation_rejects (db : DB)
    (body : Option (List (String × RawAgent))) (iterations : Nat)
    (h : body.getD [] = [] ∨ ∃ p ∈ body.getD [],
        p.2.x = none ∨ p.2.y = none ∨ p.2.vx = none ∨ p.2.vy = none) :
    (simulate db body iterations).result = .error .validationError ∧
      (simulate db body iterations).db = db := by
  have hrun :
      runSimulation body iterations = .error .validationError := by
    unfold runSimulation Simulator.create validateInit
    rcases h with hemp | ⟨p, hm, hbad⟩
    · rw [hemp]; rfl
    · have hmem : (p.1, setTimeFields p.2) ∈ applyDefaults (body.getD []) :=
        List.mem_map_of_mem _ hm
      have hne : (applyDefaults (body.getD [])).isEmpty = false := by
        cases happ : applyDefaults (body.getD []) with
        | nil => rw [happ] at hmem; cases hmem
        | cons q qs => rfl
      rw [hne]
      simp only [Bool.false_eq_true, if_false]
      rw [validateAgents_error_of_mem hmem (validateAgent_none hbad)]
  unfold simulate
  rw [hrun]
  exact ⟨rfl, rfl⟩

/-- C2 witness: a request with no body at all is rejected with a
validation error and the seeded table is unchanged. -/
theorem c2_validation_rejects_witness :
    (simulate wDb none 1).result = .error .validationError ∧
      (simulate wDb none 1).db = wDb :=
  c2_validation_rejects wDb none 1 (Or.inl rfl)

/-- C6: two distinct agents initialized at identical coordinates make the
very first iteration fail with a `NumericalError` — the zero-separation
guard fires before the singular interaction term is computed, so no
non-finite state is produced or propagated. -/
theorem c6_singularity_guard (nA nB : String) (a b : AgentState)
    (hn : nA ≠ nB) (hx : a.x = b.x) (hy : a.y = b.y) :
    Simulator.simulate [(nA, a), (nB, b)] 1 = .error .numericalError := by
  have hx0 : b.x - a.x = 0 := by rw [hx, sub_self]
  have hy0 : b.y - a.y = 0 := by rw [hy, sub_self]
  have hfilter :
      (([(nA, a), (nB, b)].filter (fun p => p.1 ≠ nA)).map Prod.snd)
        = [b] := by
    simp [List.filter, hn.symm]
  have hstepA :
      stepAgent [(nA, a), (nB, b)] nA a = .error .numericalError := by
    unfold stepAgent
    rw [hfilter]
    unfold netAccel pairAccel
    rw [hx0, hy0]
    norm_num
  unfold Simulator.simulate simulateAux stepAgents
  rw [hstepA]

/-- C6 witness: the concrete two-agent coincident run fails with a
numerical error at the first iteration. -/
theorem c6_singularity_guard_witness :
    Simulator.simulate [("A", wSingular), ("B", wSingular)] 1 =
      .error .numericalError :=
  c6_singularity_guard "A" "B" wSingular wSingular (by decide) rfl rfl

/-- A successful per-agent step advances the agent's local time by
exactly its own step size and keeps the step size unchanged. -/
theorem stepAgent_time {snap : List (String × AgentState)} {n : String}
    {a a2 : AgentState} (h : stepAgent snap n a = .ok a2) :
    a2.time = a.time + a.timeStep ∧ a2.timeStep = a.timeStep := by
  unfold stepAgent at h
  cases hm : netAccel a ((snap.filter (fun p => p.1 ≠ n)).map Prod.snd) with
  | error e => rw [hm] at h; cases h
  | ok acc =>
    rw [hm] at h
    cases h
    exact ⟨rfl, rfl⟩

/-- A successful global iteration realizes the step relation. -/
theorem stepAgents_rel {snap l l2 : List (String × AgentState)}
    (h : stepAgents snap l = .ok l2) : StepRel l l2 := by
  induction l generalizing l2 with
  | nil =>
    unfold stepAgents at h
    cases h
    exact .nil
  | cons hd tl ih =>
    obtain ⟨n, a⟩ := hd
    unfold stepAgents at h
    cases hsa : stepAgent snap n a with
    | error e => rw [hsa] at h; cases h
    | ok a2 =>
      rw [hsa] at h
      cases hst : stepAgents snap tl with
      | error e => rw [hst] at h; cases h
      | ok tl2 =>
        rw [hst] at h
        cases h
        exact .cons (stepAgent_time hsa).1 (stepAgent_time hsa).2 (ih hst)

/-- The step relation preserves positivity of every agent's step size. -/
theorem StepRel.timeStep_pos {l l2 : List (String × AgentState)}
    (h : StepRel l l2) :
    (∀ p ∈ l, 0 < (Prod.snd p).timeStep) →
      ∀ p ∈ l2, 0 < (Prod.snd p).timeStep := by
  induction h with
  | nil => exact fun hp => hp
  | @cons n a a2 tl tl2 ht hdt hrel ih =>
    intro hp p hm
    rcases List.mem_cons.mp hm with h1 | h2
    · subst h1
      show 0 < a2.timeStep
      rw [hdt]
      exact hp (n, a) (List.mem_cons_self _ _)
    · exact ih (fun q hq => hp q (List.mem_cons_of_mem _ hq)) p h2

/-- Appending the records of one successful iteration preserves the
alignment invariant between registry and store. -/
theorem aligned_append {old new : List (String × AgentState)}
    {store : RangeStore} (hrel : StepRel old new)
    (hpos : ∀ p ∈ old, 0 < (Prod.snd p).timeStep)
    (hal : Aligned old store) :
    Aligned new (appendStep old new store) := by
  induction hrel generalizing store with
  | nil =>
    cases hal
    exact .nil
  | @cons n a a2 tl tl2 ht hdt hrel2 ih =>
    cases hal with
    | cons hc hpr he htl =>
      rename_i recs srest
      have hdtpos : 0 < a.timeStep := hpos (n, a) (List.mem_cons_self _ _)
      have hlt : a.time < a2.time := by rw [ht]; linarith
      show Aligned ((n, a2) :: tl2)
        ((n, recs ++ [⟨a.time, a2.time, a2⟩]) :: appendStep tl tl2 srest)
      refine Aligned.cons ?_ ?_ ?_
        (ih (fun q hq => hpos q (List.mem_cons_of_mem _ hq)) htl)
      · refine List.Chain'.append hc (List.chain'_singleton _) ?_
        intro x hx y hy
        simp only [List.head?_cons, Option.mem_some_iff] at hy
        subst hy
        exact he x hx
      · intro r hr
        rcases List.mem_append.mp hr with h1 | h2
        · exact hpr r h1
        · rw [List.mem_singleton.mp h2]
          exact hlt
      · intro r hr
        rw [List.getLast?_concat] at hr
        rw [← Option.mem_some_iff.mp hr]

/-- The iteration loop preserves alignment: a successful run's exported
store is aligned with some final agent registry. -/
theorem simulateAux_aligned {k : Nat}
    {agents : List (String × AgentState)} {store store2 : RangeStore}
    (hal : Aligned agents store)
    (hpos : ∀ p ∈ agents, 0 < (Prod.snd p).timeStep)
    (h : simulateAux k agents store = .ok store2) :
    ∃ agents2, Aligned agents2 store2 := by
  induction k generalizing agents store with
  | zero =>
    unfold simulateAux at h
    cases h
    exact ⟨agents, hal⟩
  | succ k ih =>
    unfold simulateAux at h
    cases hst : stepAgents agents agents with
    | error e => rw [hst] at h; cases h
    | ok agents2 =>
      rw [hst] at h
      have hrel := stepAgents_rel hst
      exact ih (aligned_append hrel hpos hal) (hrel.timeStep_pos hpos) h

/-- The fresh store the run starts from is aligned with the registry. -/
theorem aligned_empty (agents : List (String × AgentState)) :
    Aligned agents (agents.map (fun p => (p.1, []))) := by
  induction agents with
  | nil => exact .nil
  | cons hd tl ih =>
    obtain ⟨n, a⟩ := hd
    exact .cons List.chain'_nil
      (fun r hr => absurd hr (List.not_mem_nil r))
      (fun r hr => by simp at hr) ih

/-- Every store row of an aligned pair is contiguous and proper. -/
theorem Aligned.store_props {agents : List (String × AgentState)}
    {store : RangeStore} (h : Aligned agents store) :
    ∀ p ∈ store, Contiguous p.2 ∧ ProperIntervals p.2 := by
  induction h with
  | nil => intro p hp; cases hp
  | @cons n a recs rest srest hc hpr he htl ih =>
    intro p hp
    rcases List.mem_cons.mp hp with h1 | h2
    · subst h1
      exact ⟨hc, hpr⟩
    · exact ih p h2

/-- In a contiguous, proper sequence the head's end bounds every later
start. -/
theorem contiguous_end_le {recs : List IntervalRecord}
    {r : IntervalRecord} (hc : Contiguous (r :: recs))
    (hp : ProperIntervals recs) :
    ∀ s ∈ recs, r.end_time ≤ s.start_time := by
  induction recs generalizing r with
  | nil => intro s hs; cases hs
  | cons s2 rest ih =>
    intro s hs
    have hr : r.end_time = s2.start_time := (List.chain'_cons.mp hc).1
    rcases List.mem_cons.mp hs with h1 | h2
    · rw [h1]
      exact le_of_eq hr
    · have hs2 : s2.start_time < s2.end_time :=
        hp s2 (List.mem_cons_self _ _)
      have hrec := ih (List.chain'_cons.mp hc).2
        (fun q hq => hp q (List.mem_cons_of_mem _ hq)) s h2
      calc r.end_time = s2.start_time := hr
        _ ≤ s.start_time := le_trans (le_of_lt hs2) hrec

/-- Contiguity with proper intervals yields strictly increasing start
times across the whole sequence. -/
theorem contiguous_start_lt {recs : List IntervalRecord}
    (hc : Contiguous recs) (hp : ProperIntervals recs) :
    List.Pairwise (fun r s => r.start_time < s.start_time) recs := by
  induction recs with
  | nil => exact List.Pairwise.nil
  | cons r rest ih =>
    have hp2 : ProperIntervals rest :=
      fun s hs => hp s (List.mem_cons_of_mem _ hs)
    refine List.Pairwise.cons ?_ (ih hc.tail hp2)
    intro s hs
    have h1 : r.start_time < r.end_time := hp r (List.mem_cons_self _ _)
    have h2 : r.end_time ≤ s.start_time := contiguous_end_le hc hp2 s hs
    linarith

/-- C5: for every agent of every completed run (positive per-agent step
sizes), the agent's interval records are contiguous — consecutive records
satisfy `end_time = start_time` — strictly increasing in `start_time`,
and each interval is non-degenerate, so the history has no gaps and no
overlaps. -/
theorem c5_interval_contiguity (agents : List (String × AgentState))
    (iterations : Nat) (out : RangeStore)
    (hpos : ∀ p ∈ agents, 0 < (Prod.snd p).timeStep)
    (hok : Simulator.simulate agents iterations = .ok out) :
    ∀ p ∈ out, Contiguous p.2 ∧
      List.Pairwise (fun r s => r.start_time < s.start_time) p.2 ∧
      ProperIntervals p.2 := by
  unfold Simulator.simulate at hok
  obtain ⟨ag2, hal⟩ := simulateAux_aligned (aligned_empty agents) hpos hok
  intro p hp
  obtain ⟨hc, hpr⟩ := hal.store_props p hp
  exact ⟨hc, contiguous_start_lt hc hpr, hpr⟩

/-- C5 witness: the single-agent one-iteration run yields a contiguous,
strictly increasing, proper record sequence. -/
theorem c5_interval_contiguity_witness :
    Contiguous wRecs ∧
      List.Pairwise (fun r s => r.start_time < s.start_time) wRecs ∧
      ProperIntervals wRecs :=
  c5_interval_contiguity wAgents 1 wOut
    (by intro p hp; simp [wAgents] at hp; subst hp; simp)
    (by simp [Simulator.simulate, simulateAux, stepAgents, stepAgent,
      netAccel, pairAccel, appendStep, wAgents, wOut, List.filter])
    ("A", wRecs) (List.mem_singleton.mpr rfl)

end Sedaro
